import Mathlib

set_option maxHeartbeats 1000000

/-! Shallow embedding of the greedy energy-increment decomposition notebook:
spherical cubature rule, rank-one polynomial model, Lr norms over the rule,
sample-size bound, greedy vector search, Gram projection and the outer
greedy loop.  Machine floats are modelled by real numbers, numpy/sympy
evaluation by exact real arithmetic, and Python exceptions by
`Except String` carrying the raised message. -/

/-- Expression trees for the sympy expressions the notebook builds: a
rank-one power term `c * (v . x) ^ d` (the `custom_polynomial`
constructor), together with the sums, differences and scalar multiples
produced by `add_polynomials`, `sustract_polynomials` and
`multiply_constant`. -/
inductive PExpr where
  | power : ℝ → List ℝ → ℕ → PExpr
  | add : PExpr → PExpr → PExpr
  | sub : PExpr → PExpr → PExpr
  | smul : ℝ → PExpr → PExpr

/-- Inner product of two coordinate lists,
`Matrix(list(v)).dot(Matrix(list(w)))` in the source. -/
def dot (v w : List ℝ) : ℝ := (List.zipWith (fun a b => a * b) v w).sum

/-- Evaluation of an expression at a point; this is the function that
`lambdify` compiles from the sympy expression. -/
noncomputable def PExpr.eval : PExpr → List ℝ → ℝ
  | PExpr.power c v d, x => c * dot v x ^ d
  | PExpr.add p q, x => PExpr.eval p x + PExpr.eval q x
  | PExpr.sub p q, x => PExpr.eval p x - PExpr.eval q x
  | PExpr.smul c p, x => c * PExpr.eval p x

/-- The notebook's `custom_polynomial` class: number of variables, degree,
the symbolic expression `expr` and the lambdified evaluator `f`. -/
structure custom_polynomial where
  num_var : ℕ
  degree : ℕ
  expr : PExpr
  f : List ℝ → ℝ

/-- The class constructor `custom_polynomial(const, v, d)`: the rank-one
polynomial `const * (v . x) ^ d` in `len(v)` variables. -/
noncomputable def custom_polynomial.init (const : ℝ) (v : List ℝ) (d : ℕ) :
    custom_polynomial :=
  { num_var := v.length
    degree := d
    expr := PExpr.power const v d
    f := PExpr.eval (PExpr.power const v d) }

/-- `custom_polynomial.evaluate`: raises when the point's length differs
from the number of variables, otherwise applies the evaluator. -/
noncomputable def custom_polynomial.evaluate (p : custom_polynomial) (w : List ℝ) :
    Except String ℝ :=
  if p.num_var ≠ w.length then Except.error "This polynomial cannot be evaluated"
  else Except.ok (p.f w)

/-- `evaluate_pol(poly, v)`: convenience wrapper around `evaluate`. -/
noncomputable def evaluate_pol (poly : custom_polynomial) (v : List ℝ) :
    Except String ℝ :=
  poly.evaluate v

/-- `parallelized_evaluation(poly, V)`: evaluates `poly` at every point of
`V` (the dask parallel map preserves input order, so it is a plain
monadic map; a per-point failure propagates). -/
noncomputable def parallelized_evaluation (poly : custom_polynomial) :
    List (List ℝ) → Except String (List ℝ)
  | [] => Except.ok []
  | v :: V =>
      match evaluate_pol poly v with
      | Except.error e => Except.error e
      | Except.ok fv =>
          match parallelized_evaluation poly V with
          | Except.error e => Except.error e
          | Except.ok fV => Except.ok (fv :: fV)

/-- `ball_volume(n)`: volume of the n-dimensional unit ball.  The source
takes an `int` and raises for `n < 0`; the embedding's domain `ℕ` carries
exactly the non-raising inputs. -/
noncomputable def ball_volume : ℕ → ℝ
  | 0 => 1
  | 1 => 2
  | n + 2 => 2 * Real.pi / (n + 2) * ball_volume n

/-- `sphere_surface_area(n)`: surface area of the n-dimensional sphere. -/
noncomputable def sphere_surface_area (n : ℕ) : ℝ := (n + 1) * ball_volume (n + 1)

/-- `custom_polynomial.Lr_norm(X, WX, r)`: the source raises the node
evaluations to the r-th power directly (`evaluations**r`, no
`np.absolute`), sums them against the weights, normalizes by the surface
area and takes the r-th root. -/
noncomputable def custom_polynomial.Lr_norm (p : custom_polynomial)
    (X : List (List ℝ)) (WX : List ℝ) (r : ℕ) : Except String ℝ :=
  let c := sphere_surface_area (p.num_var - 1)
  match parallelized_evaluation p X with
  | Except.error e => Except.error e
  | Except.ok evaluations =>
      let powered := evaluations.map (fun t => t ^ r)
      Except.ok ((1 / c * (List.zipWith (fun w t => w * t) WX powered).sum) ^ ((1 : ℝ) / r))

/-- The module-level `Lr_norm(X, WX, n, r, poly)`: same computation as the
method, with the dimension passed explicitly. -/
noncomputable def Lr_norm (X : List (List ℝ)) (WX : List ℝ) (n : ℕ) (r : ℕ)
    (poly : custom_polynomial) : Except String ℝ :=
  let c := sphere_surface_area (n - 1)
  match parallelized_evaluation poly X with
  | Except.error e => Except.error e
  | Except.ok evaluations =>
      let powered := evaluations.map (fun t => t ^ r)
      Except.ok ((1 / c * (List.zipWith (fun w t => w * t) WX powered).sum) ^ ((1 : ℝ) / r))

/-- Follows the spec's words (not the source): the Lr-norm computation
returns `((1/surfaceArea(n-1)) * sum W(x) * abs(poly(x)) ^ r) ^ (1/r)`, with
the node evaluations taken in absolute value before the r-th power. -/
noncomputable def Lr_norm_specced (X : List (List ℝ)) (WX : List ℝ) (n : ℕ) (r : ℕ)
    (poly : custom_polynomial) : Except String ℝ :=
  let c := sphere_surface_area (n - 1)
  match parallelized_evaluation poly X with
  | Except.error e => Except.error e
  | Except.ok evaluations =>
      let powered := evaluations.map (fun t => |t| ^ r)
      Except.ok ((1 / c * (List.zipWith (fun w t => w * t) WX powered).sum) ^ ((1 : ℝ) / r))

/-- `custom_flatten(x)` for a pair `x = (z, y)`: prepend `z` and scale the
remaining coordinates by `sqrt(1 - z^2)`. -/
noncomputable def custom_flatten (x : ℝ × List ℝ) : List ℝ :=
  let t1 := x.1
  let t2 := x.2.map (fun y => Real.sqrt (1 - x.1 ^ 2) * y)
  t1 :: t2

/-- `spherical_quadrature(n, deg)`.  `scipy.special.roots_jacobi` is
external library code, supplied here as the parameter `rj` mapping the
order and the (rational) Jacobi exponent `(n-3)/2` to the node/weight
lists.  `n = 0` stands for the source's raising branch `n < 1`; the
docstring precondition that `deg` is even is not enforced by the code. -/
noncomputable def spherical_quadrature (rj : ℕ → ℚ → List ℝ × List ℝ) :
    ℕ → ℕ → Except String (List (List ℝ) × List ℝ)
  | 0, _ => Except.error "dimension argument must be positive"
  | 1, _ => Except.ok ([[1], [-1]], [1, 1])
  | n + 2, deg =>
      match spherical_quadrature rj (n + 1) deg with
      | Except.error e => Except.error e
      | Except.ok (Y, WY) =>
          let ZW := rj deg ((((n : ℚ) + 2) - 3) / 2)
          Except.ok
            (ZW.1.flatMap (fun z => Y.map (fun y => custom_flatten (z, y))),
             ZW.2.flatMap (fun wz => WY.map (fun wy => wz * wy)))

/-- `sample_size(n, deg, r, accu)`: the closed-form sample bound
`ceil(-log(1-accu) * min((2r)^(deg/2), C(r deg+n-1, r deg)^(1/(2r)))^(2r))`. -/
noncomputable def sample_size (n deg r : ℕ) (accu : ℝ) : ℤ :=
  let C : ℝ := 2
  let t : ℝ := -Real.log (1 - accu)
  let a : ℝ := (C * r) ^ ((deg : ℝ) / 2)
  let b : ℝ := ((Nat.choose (r * deg + n - 1) (r * deg) : ℝ)) ^ ((1 : ℝ) / (2 * r))
  let alpha := min a b
  ⌈t * alpha ^ (2 * r)⌉

/-- `multiply_constant(poly, constant)`: shallow-copies the instance and
rebinds `expr` and `f` on the copy. -/
noncomputable def multiply_constant (poly : custom_polynomial) (constant : ℝ) :
    custom_polynomial :=
  { poly with
    expr := PExpr.smul constant poly.expr
    f := PExpr.eval (PExpr.smul constant poly.expr) }

/-- `add_polynomials(poly1, poly2)`. -/
noncomputable def add_polynomials (poly1 poly2 : custom_polynomial) :
    custom_polynomial :=
  { poly1 with
    expr := PExpr.add poly1.expr poly2.expr
    f := PExpr.eval (PExpr.add poly1.expr poly2.expr) }

/-- `sustract_polynomials(poly1, poly2)`. -/
noncomputable def sustract_polynomials (poly1 poly2 : custom_polynomial) :
    custom_polynomial :=
  { poly1 with
    expr := PExpr.sub poly1.expr poly2.expr
    f := PExpr.eval (PExpr.sub poly1.expr poly2.expr) }

/-- Row-wise filter quantity of `vec_finder`:
`np.max(np.absolute(np.matmul(V, W.T)), axis=1)` for the row of candidate
`v` against the basis `W` (the entries are absolute values, so the fold's
neutral `0` agrees with `np.max` on the non-empty rows it is applied to). -/
noncomputable def row_max_abs_inner (v : List ℝ) (W : List (List ℝ)) : ℝ :=
  (W.map (fun w => |dot v w|)).foldr max 0

/-- `np.argmax`: index of the first occurrence of the maximum (the source
only applies it to non-empty lists; on `[]` numpy raises, which the
caller's embedding handles before calling this function). -/
noncomputable def np_argmax : List ℝ → ℕ
  | [] => 0
  | a :: rest =>
      match rest with
      | [] => 0
      | _ :: _ =>
          let j := np_argmax rest
          if a < rest.getD j 0 then j + 1 else 0

/-- `np.max` over a list of absolute values (non-negative entries, so the
fold's neutral `0` agrees with the true maximum on non-empty input). -/
noncomputable def np_max (l : List ℝ) : ℝ := l.foldr max 0

/-- Result quadruple of a successful `vec_finder` attempt:
`(v, fv, q, lrnorm)`. -/
abbrev FinderQuad := List ℝ × ℝ × custom_polynomial × ℝ

/-- `vec_finder(n, r, poly, projection_poly, accu, max_size, inner, W, X, WX,
tries)`.  The random draws of `sample_spherical(n, max_size)` are supplied
as the list `batches`, one batch per attempt (the list is assumed long
enough; running out is a modelling artifact reported as an error).  A
Python `return` is `Except.ok (some quad)`; falling off the end of the
function (the retry branch discards the recursive call's value) is
`Except.ok none`; a raised exception is `Except.error` and propagates out
of the recursive call. -/
noncomputable def vec_finder (n : ℕ) (r : ℕ) (poly projection_poly : custom_polynomial)
    (accu : ℝ) (max_size : ℤ) (inner : ℝ) (W : List (List ℝ))
    (X : List (List ℝ)) (WX : List ℝ) :
    List (List (List ℝ)) → ℕ → Except String (Option FinderQuad)
  | [], _ => Except.error "sample stream exhausted"
  | V :: batches, tries =>
      let deg := poly.degree
      let Vf := match W with
        | [] => V
        | _ :: _ => V.filter (fun v => decide (row_max_abs_inner v W < inner))
      let poly_diff := sustract_polynomials poly projection_poly
      match poly_diff.Lr_norm X WX r with
      | Except.error e => Except.error e
      | Except.ok lrnorm =>
          match parallelized_evaluation poly_diff Vf with
          | Except.error e => Except.error e
          | Except.ok fV =>
              let abs_fV := fV.map (fun t => |t|)
              match abs_fV with
              | [] => Except.error "attempt to get argmax of an empty sequence"
              | _ :: _ =>
                  let max_position := np_argmax abs_fV
                  let v := Vf.getD max_position []
                  let fv := fV.getD max_position 0
                  let abs_fv := np_max abs_fV
                  if (0.5 : ℝ) * lrnorm ≤ abs_fv then
                    Except.ok (some (v, fv, custom_polynomial.init 1 v deg, lrnorm))
                  else
                    if tries + 1 ≤ 10 then
                      match vec_finder n r poly projection_poly accu max_size inner W X WX
                          batches (tries + 1) with
                      | Except.error e => Except.error e
                      | Except.ok _ => Except.ok none
                    else Except.error "Maximum number of tries exceeded"

/-- The Gram-like matrix `np.power(new_W @ new_W.T, deg)` over a list of
direction vectors. -/
noncomputable def gram_matrix (Ws : List (List ℝ)) (deg : ℕ) :
    Matrix (Fin Ws.length) (Fin Ws.length) ℝ :=
  fun i j => dot (Ws.get i) (Ws.get j) ^ deg

/-- The projection polynomial the accepted branch of `add_vector` builds:
`multiply_constant(Q[0], B[0])` followed by
`add_polynomials(. , multiply_constant(Q[i], B[i]))` for `i = 1, ...`
(the source indexes `Q[0]`, so `Q` is non-empty there; the `[]` case is
unreachable). -/
noncomputable def projection_from (Q : List custom_polynomial) (B : ℕ → ℝ) :
    custom_polynomial :=
  match Q with
  | [] => custom_polynomial.init 0 [] 0
  | q0 :: qs =>
      qs.enum.foldl
        (fun acc iq => add_polynomials acc (multiply_constant iq.2 (B (iq.1 + 1))))
        (multiply_constant q0 (B 0))

/-- `add_vector(W, fW, Q, X, WX, n, r, poly, projection_poly, max_size,
inner, accu)`.  The successive quadruples delivered by `vec_finder` are
supplied as the oracle stream `finds` (one per call, mirroring a run in
which the finder returns from its first attempt); the unconsumed suffix is
returned alongside so the outer loop can be threaded through it.  As in
`vec_finder`, the singular branch's recursive call has no `return` in the
source, so its value is discarded and the call yields `Except.ok` of
`none` paired with the suffix left by the inner call. -/
noncomputable def add_vector (W : List (List ℝ)) (fW : List ℝ)
    (Q : List custom_polynomial) (X : List (List ℝ)) (WX : List ℝ) (n : ℕ) (r : ℕ)
    (poly projection_poly : custom_polynomial) (max_size : ℤ) (inner accu : ℝ) :
    List FinderQuad →
    Except String
      (Option (List (List ℝ) × List ℝ × List custom_polynomial × ℝ × custom_polynomial)
        × List FinderQuad)
  | [] => Except.error "finder stream exhausted"
  | (v, fv, q, lrnorm) :: rest =>
      let deg := poly.degree
      let new_W := W ++ [v]
      let matrix := gram_matrix new_W deg
      if Matrix.rank matrix ≠ new_W.length then
        match add_vector W fW Q X WX n r poly projection_poly max_size inner accu rest with
        | Except.error e => Except.error e
        | Except.ok (_, rest2) => Except.ok (none, rest2)
      else
        let W2 := W ++ [v]
        let fW2 := fW ++ [fv]
        let Q2 := Q ++ [q]
        let B : ℕ → ℝ := fun i =>
          if h : i < new_W.length then
            (matrix⁻¹).mulVec (fun k => fW2.getD (k : ℕ) 0) ⟨i, h⟩
          else 0
        Except.ok (some (W2, fW2, Q2, lrnorm, projection_from Q2 B), rest)

/-- Exit channel of the `greedy_approximation` while-loop: the loop
condition failing (`CONVERGED`), the stagnation counter reaching
`max_iter` (`STAGNANT_STOP`), the basis-size break (`BASIS_FULL`), and the
fuel of the embedding running out (a modelling artifact: the source loop
has no such case). -/
inductive GreedyExit where
  | converged : GreedyExit
  | stagnant_stop : GreedyExit
  | basis_full : GreedyExit
  | out_of_fuel : GreedyExit
deriving DecidableEq

/-- Absolute value on `EReal` (the error variable starts at `np.inf`). -/
noncomputable def ereal_abs (x : EReal) : EReal := max x (-x)

/-- One run of the `while error >= eps` loop of `greedy_approximation`,
carried state `(W, fW, Q, error, projection_poly, iteration)` and the
finder oracle stream; `fuel` bounds the number of iterations of the
embedding only.  A stagnant iteration (`difference <= tol`) restores the
error, truncates `W`, `fW`, `Q` by one and advances `iteration`; the
projection variable keeps the value assigned from the just-computed
`new_projection_poly` before the test, exactly as in the source.
Unpacking the `None` produced by `add_vector`'s singular fall-through
raises a `TypeError` at the assignment. -/
noncomputable def greedy_loop (n : ℕ) (r : ℕ) (poly : custom_polynomial)
    (accu inner : ℝ) (eps tol : ℝ) (max_iter : ℕ) (max_vec : ℕ)
    (X : List (List ℝ)) (WX : List ℝ) (max_size : ℤ) :
    ℕ → List (List ℝ) → List ℝ → List custom_polynomial → EReal →
    custom_polynomial → ℕ → List FinderQuad →
    Except String
      (List (List ℝ) × List ℝ × List custom_polynomial × EReal × custom_polynomial
        × GreedyExit)
  | 0, W, fW, Q, error, projection_poly, _, _ =>
      Except.ok (W, fW, Q, error, projection_poly, GreedyExit.out_of_fuel)
  | fuel + 1, W, fW, Q, error, projection_poly, iteration, finds =>
      if error < (eps : EReal) then
        Except.ok (W, fW, Q, error, projection_poly, GreedyExit.converged)
      else
        let old_error := error
        match add_vector W fW Q X WX n r poly projection_poly max_size inner accu finds with
        | Except.error e => Except.error e
        | Except.ok (none, _) => Except.error "cannot unpack non-iterable NoneType object"
        | Except.ok (some (W2, fW2, Q2, error2, new_projection_poly), rest) =>
            let difference := ereal_abs (old_error - (error2 : EReal))
            let projection2 := new_projection_poly
            if difference ≤ (tol : EReal) then
              let W3 := W2.dropLast
              let fW3 := fW2.dropLast
              let Q3 := Q2.dropLast
              let iteration2 := iteration + 1
              if max_iter ≤ iteration2 then
                Except.ok (W3, fW3, Q3, old_error, projection2, GreedyExit.stagnant_stop)
              else if max_vec ≤ W3.length then
                Except.ok (W3, fW3, Q3, old_error, projection2, GreedyExit.basis_full)
              else
                greedy_loop n r poly accu inner eps tol max_iter max_vec X WX max_size
                  fuel W3 fW3 Q3 old_error projection2 iteration2 rest
            else
              if max_vec ≤ W2.length then
                Except.ok (W2, fW2, Q2, (error2 : EReal), projection2, GreedyExit.basis_full)
              else
                greedy_loop n r poly accu inner eps tol max_iter max_vec X WX max_size
                  fuel W2 fW2 Q2 (error2 : EReal) projection2 iteration rest

/-- `greedy_approximation(n, r, poly, accu, inner, eps, tol, max_iter)`:
builds the quadrature once, starts from the empty basis, the zero residual
projection `poly - poly`, `error = np.inf` and `iteration = 1`, caps the
sample size at 100000, and runs the loop.  The Jacobi-node oracle `rj`,
the finder oracle `finds` and the loop fuel are the embedding's inputs for
the external library call and the random draws. -/
noncomputable def greedy_approximation (rj : ℕ → ℚ → List ℝ × List ℝ)
    (finds : List FinderQuad) (fuel : ℕ) (n : ℕ) (r : ℕ) (poly : custom_polynomial)
    (accu inner eps : ℝ) (tol : ℝ) (max_iter : ℕ) :
    Except String
      (List (List ℝ) × List ℝ × List custom_polynomial × EReal × custom_polynomial
        × GreedyExit) :=
  let deg := poly.degree
  let max_vec := Nat.choose (n + deg - 1) deg
  match spherical_quadrature rj n deg with
  | Except.error e => Except.error e
  | Except.ok (X, WX) =>
      let projection_poly := sustract_polynomials poly poly
      let size := sample_size n deg r accu
      let max_size := min size 100000
      greedy_loop n r poly accu inner eps tol max_iter max_vec X WX max_size
        fuel [] [] [] ⊤ projection_poly 1 finds

/-- Object store modelling the Python heap of `custom_polynomial`
instances: addresses are list positions, in-place attribute writes are
positional updates, `copy.copy` appends a fresh shallow copy. -/
abbrev PolyStore := List custom_polynomial

/-- Store-level `multiply_constant`: `copy.copy` the operand into a fresh
instance, then rebind `expr` and `f` on the copy only.  Returns the new
store and the address of the result (an out-of-range operand address is
returned unchanged; the source would have raised earlier). -/
noncomputable def multiply_constant_st (s : PolyStore) (i : ℕ) (constant : ℝ) :
    PolyStore × ℕ :=
  match s.get? i with
  | none => (s, i)
  | some p => (s ++ [multiply_constant p constant], s.length)

/-- Store-level `add_polynomials`. -/
noncomputable def add_polynomials_st (s : PolyStore) (i j : ℕ) :
    PolyStore × ℕ :=
  match s.get? i, s.get? j with
  | some p, some q => (s ++ [add_polynomials p q], s.length)
  | _, _ => (s, i)

/-- Store-level `sustract_polynomials`. -/
noncomputable def sustract_polynomials_st (s : PolyStore) (i j : ℕ) :
    PolyStore × ℕ :=
  match s.get? i, s.get? j with
  | some p, some q => (s ++ [sustract_polynomials p q], s.length)
  | _, _ => (s, i)

/-- C8: the ball-volume function satisfies volume(0) = 1, volume(1) = 2 and
volume(k) = (2*pi/k) * volume(k-2) for every k > 1, and the surface-area
function satisfies surfaceArea(k) = (k+1) * volume(k+1) for every k >= 0. -/
theorem ball_volume_surface_area_recursion :
    ball_volume 0 = 1 ∧ ball_volume 1 = 2 ∧
    (∀ k : ℕ, 1 < k → ball_volume k = 2 * Real.pi / k * ball_volume (k - 2)) ∧
    (∀ k : ℕ, sphere_surface_area k = (k + 1) * ball_volume (k + 1)) := by
  refine ⟨rfl, rfl, ?_, fun k => rfl⟩
  intro k hk
  match k, hk with
  | n + 2, _ =>
    show ball_volume (n + 2) = 2 * Real.pi / (↑(n + 2)) * ball_volume (n + 2 - 2)
    rw [ball_volume]
    push_cast
    norm_num

/-- Witness for C8, instantiating the recursive clause at k = 4. -/
theorem ball_volume_surface_area_recursion_witness :
    (1 < 4) ∧ ball_volume 4 = 2 * Real.pi / ((4 : ℕ) : ℝ) * ball_volume (4 - 2) :=
  ⟨by norm_num, ball_volume_surface_area_recursion.2.2.1 4 (by norm_num)⟩

/-- C5: the quadrature builder returns the two-node rule {+1, -1} with unit
weights for n = 1; for n > 1 it recurses on n-1, takes the Gauss-Jacobi
nodes/weights of order deg with parameter (n-3)/2, and emits the lifted
node custom_flatten(z, y) with weight wz*wy for every pair of the product;
it raises the invalid-input error for n < 1 and never fails for n >= 1
(the evenness of deg is a documented caller precondition, not checked). -/
theorem spherical_quadrature_build :
    ∀ (rj : ℕ → ℚ → List ℝ × List ℝ) (deg : ℕ),
      spherical_quadrature rj 0 deg = Except.error "dimension argument must be positive" ∧
      spherical_quadrature rj 1 deg = Except.ok ([[1], [-1]], [1, 1]) ∧
      (∀ (n : ℕ) (Y : List (List ℝ)) (WY : List ℝ),
        spherical_quadrature rj (n + 1) deg = Except.ok (Y, WY) →
        spherical_quadrature rj (n + 2) deg =
          Except.ok
            ((rj deg ((((n : ℚ) + 2) - 3) / 2)).1.flatMap
                (fun z => Y.map (fun y => custom_flatten (z, y))),
             (rj deg ((((n : ℚ) + 2) - 3) / 2)).2.flatMap
                (fun wz => WY.map (fun wy => wz * wy)))) ∧
      (∀ n : ℕ, 1 ≤ n → ∃ XW, spherical_quadrature rj n deg = Except.ok XW) := by
  intro rj deg
  have key : ∀ n : ℕ, ∃ XW, spherical_quadrature rj (n + 1) deg = Except.ok XW := by
    intro n
    induction n with
    | zero => exact ⟨([[1], [-1]], [1, 1]), rfl⟩
    | succ m ih =>
        obtain ⟨⟨Y, WY⟩, h⟩ := ih
        exact ⟨((rj deg ((((m : ℚ) + 2) - 3) / 2)).1.flatMap
                  (fun z => Y.map (fun y => custom_flatten (z, y))),
                (rj deg ((((m : ℚ) + 2) - 3) / 2)).2.flatMap
                  (fun wz => WY.map (fun wy => wz * wy))),
               by rw [spherical_quadrature, h]⟩
  refine ⟨rfl, rfl, ?_, ?_⟩
  · intro n Y WY h
    rw [spherical_quadrature, h]
  · intro n hn
    match n, hn with
    | m + 1, _ => exact key m

/-- Witness for C5: a concrete Jacobi oracle with one node z = 0 of weight
2; the n = 2 rule is the product construction over the n = 1 rule. -/
theorem spherical_quadrature_build_witness :
    spherical_quadrature (fun _ _ => ([(0 : ℝ)], [(2 : ℝ)])) 1 4 =
        Except.ok ([[1], [-1]], [1, 1]) ∧
    spherical_quadrature (fun _ _ => ([(0 : ℝ)], [(2 : ℝ)])) 2 4 =
      Except.ok ([[(0 : ℝ), 1], [(0 : ℝ), -1]], [2, 2]) := by
  have h := spherical_quadrature_build (fun _ _ => ([(0 : ℝ)], [(2 : ℝ)])) 4
  refine ⟨h.2.1, ?_⟩
  have h3 := h.2.2.1 0 [[1], [-1]] [1, 1] h.2.1
  rw [h3]
  simp [custom_flatten]

/-- C9: on operands of matching dimension and degree, scaling, addition
and subtraction allocate a fresh instance (its address is the old store
length) carrying the combined expression, and leave every pre-existing
store entry — in particular the operands with their expr and f — exactly
as they were. -/
theorem polynomial_arithmetic_immutable :
    ∀ (s : PolyStore) (i j : ℕ) (c : ℝ) (p q : custom_polynomial),
      s.get? i = some p → s.get? j = some q →
      p.num_var = q.num_var → p.degree = q.degree →
      (multiply_constant_st s i c = (s ++ [multiply_constant p c], s.length) ∧
        (s ++ [multiply_constant p c]).take s.length = s ∧
        (multiply_constant p c).expr = PExpr.smul c p.expr) ∧
      (add_polynomials_st s i j = (s ++ [add_polynomials p q], s.length) ∧
        (s ++ [add_polynomials p q]).take s.length = s ∧
        (add_polynomials p q).expr = PExpr.add p.expr q.expr) ∧
      (sustract_polynomials_st s i j = (s ++ [sustract_polynomials p q], s.length) ∧
        (s ++ [sustract_polynomials p q]).take s.length = s ∧
        (sustract_polynomials p q).expr = PExpr.sub p.expr q.expr) := by
  intro s i j c p q hp hq _ _
  refine ⟨⟨?_, ?_, rfl⟩, ⟨?_, ?_, rfl⟩, ⟨?_, ?_, rfl⟩⟩
  · rw [multiply_constant_st, hp]
  · exact List.take_left s _
  · rw [add_polynomials_st, hp, hq]
  · exact List.take_left s _
  · rw [sustract_polynomials_st, hp, hq]
  · exact List.take_left s _

/-- Witness for C9 on the two-element store [x^2, 2 x^2]. -/
theorem polynomial_arithmetic_immutable_witness :
    (([custom_polynomial.init 1 [1] 2, custom_polynomial.init 2 [1] 2] :
        PolyStore).get? 0 = some (custom_polynomial.init 1 [1] 2) ∧
      ([custom_polynomial.init 1 [1] 2, custom_polynomial.init 2 [1] 2] :
        PolyStore).get? 1 = some (custom_polynomial.init 2 [1] 2) ∧
      (custom_polynomial.init 1 [1] 2).num_var = (custom_polynomial.init 2 [1] 2).num_var ∧
      (custom_polynomial.init 1 [1] 2).degree = (custom_polynomial.init 2 [1] 2).degree) ∧
    add_polynomials_st [custom_polynomial.init 1 [1] 2, custom_polynomial.init 2 [1] 2] 0 1 =
      ([custom_polynomial.init 1 [1] 2, custom_polynomial.init 2 [1] 2,
        add_polynomials (custom_polynomial.init 1 [1] 2) (custom_polynomial.init 2 [1] 2)], 2) := by
  have h := polynomial_arithmetic_immutable
    [custom_polynomial.init 1 [1] 2, custom_polynomial.init 2 [1] 2] 0 1 1
    (custom_polynomial.init 1 [1] 2) (custom_polynomial.init 2 [1] 2)
    rfl rfl rfl rfl
  exact ⟨⟨rfl, rfl, rfl, rfl⟩, h.2.1.1⟩

/-- C1 counterexample: at r = 1, for p(x) = -(x^2) and the
one-dimensional rule X = [[1], [-1]], WX = [1, 1], the code's Lr-norm is
-1 (the signed evaluations are summed), while the spec's formula with the
absolute value is 1. -/
theorem Lr_norm_no_abs_counterexample :
    custom_polynomial.Lr_norm (custom_polynomial.init (-1) [1] 2) [[1], [-1]] [1, 1] 1 =
        Except.ok (-1) ∧
    Lr_norm_specced [[1], [-1]] [1, 1] 1 1 (custom_polynomial.init (-1) [1] 2) =
        Except.ok 1 ∧
    ((-1 : ℝ)) ≠ 1 := by
  have hev : parallelized_evaluation (custom_polynomial.init (-1) [1] 2) [[1], [-1]] =
      Except.ok [-1, -1] := by
    simp [parallelized_evaluation, evaluate_pol, custom_polynomial.evaluate,
      custom_polynomial.init, PExpr.eval, dot]
  refine ⟨?_, ?_, by norm_num⟩
  · rw [custom_polynomial.Lr_norm, hev]
    simp only [custom_polynomial.init, sphere_surface_area, ball_volume]
    norm_num
  · rw [Lr_norm_specced, hev]
    simp only [sphere_surface_area, ball_volume]
    norm_num

/-- C1 amended: both Lr-norm implementations raise the signed node
evaluations to the r-th power without taking the absolute value; for even
r (where t^r = abs(t)^r) this coincides with the spec's absolute-value
formula. -/
theorem Lr_norm_even_r_matches_spec :
    ∀ (p : custom_polynomial) (X : List (List ℝ)) (WX : List ℝ) (n r : ℕ),
      Even r →
      custom_polynomial.Lr_norm p X WX r = Lr_norm_specced X WX p.num_var r p ∧
      Lr_norm X WX n r p = Lr_norm_specced X WX n r p := by
  intro p X WX n r hr
  have hfun : (fun t : ℝ => t ^ r) = fun t : ℝ => |t| ^ r := by
    funext t
    exact (hr.pow_abs t).symm
  constructor
  · rw [custom_polynomial.Lr_norm, Lr_norm_specced, hfun]
  · rw [Lr_norm, Lr_norm_specced, hfun]

/-- Witness for C1's amended theorem at r = 2. -/
theorem Lr_norm_even_r_matches_spec_witness :
    Even 2 ∧
    (custom_polynomial.Lr_norm (custom_polynomial.init (-1) [1] 2) [[1], [-1]] [1, 1] 2 =
        Lr_norm_specced [[1], [-1]] [1, 1]
          (custom_polynomial.init (-1) [1] 2).num_var 2
          (custom_polynomial.init (-1) [1] 2) ∧
      Lr_norm [[1], [-1]] [1, 1] 1 2 (custom_polynomial.init (-1) [1] 2) =
        Lr_norm_specced [[1], [-1]] [1, 1] 1 2 (custom_polynomial.init (-1) [1] 2)) :=
  ⟨by decide, Lr_norm_even_r_matches_spec (custom_polynomial.init (-1) [1] 2)
    [[1], [-1]] [1, 1] 1 2 (by decide)⟩

/-- Raising to a natural power commutes with the minimum of two
non-negative reals. -/
lemma min_pow_of_nonneg (a b : ℝ) (k : ℕ) (ha : 0 ≤ a) (hb : 0 ≤ b) :
    min a b ^ k = min (a ^ k) (b ^ k) := by
  rcases le_total a b with h | h
  · rw [min_eq_left h, min_eq_left (pow_le_pow_left₀ ha h k)]
  · rw [min_eq_right h, min_eq_right (pow_le_pow_left₀ hb h k)]

/-- Closed form for `alpha ^ (2 r)` in `sample_size`: the minimum of
`(2 r) ^ (deg * r)` and the binomial coefficient itself. -/
lemma sample_size_alpha_pow (n deg r : ℕ) (hr : 1 ≤ r) :
    (min ((2 * (r : ℝ)) ^ ((deg : ℝ) / 2))
        (((Nat.choose (r * deg + n - 1) (r * deg) : ℕ) : ℝ) ^ ((1 : ℝ) / (2 * (r : ℝ))))) ^ (2 * r)
      = min ((2 * (r : ℝ)) ^ (deg * r))
          ((Nat.choose (r * deg + n - 1) (r * deg) : ℝ)) := by
  have hrR : (1 : ℝ) ≤ (r : ℝ) := by exact_mod_cast hr
  have hbase : (0 : ℝ) ≤ 2 * (r : ℝ) := by positivity
  have hcomb : (0 : ℝ) ≤ ((Nat.choose (r * deg + n - 1) (r * deg) : ℕ) : ℝ) :=
    Nat.cast_nonneg _
  rw [min_pow_of_nonneg _ _ _ (Real.rpow_nonneg hbase _) (Real.rpow_nonneg hcomb _)]
  congr 1
  · rw [← Real.rpow_natCast ((2 * (r : ℝ)) ^ ((deg : ℝ) / 2)) (2 * r),
      ← Real.rpow_mul hbase, ← Real.rpow_natCast (2 * (r : ℝ)) (deg * r)]
    congr 1
    push_cast
    ring
  · rw [← Real.rpow_natCast
        (((Nat.choose (r * deg + n - 1) (r * deg) : ℕ) : ℝ) ^ ((1 : ℝ) / (2 * (r : ℝ)))) (2 * r),
      ← Real.rpow_mul hcomb]
    have h2r : (1 : ℝ) / (2 * (r : ℝ)) * ((2 * r : ℕ) : ℝ) = 1 := by
      have hne : (2 * (r : ℝ)) ≠ 0 := by positivity
      push_cast
      field_simp
    rw [h2r, Real.rpow_one]

/-- The binomial coefficient `C(a + n - 1, a)` is monotone in `a` when
`n >= 1` (by symmetry it is `C(a + (n-1), n-1)`, monotone in the top). -/
lemma choose_shift_mono (n : ℕ) (hn : 1 ≤ n) {a b : ℕ} (hab : a ≤ b) :
    Nat.choose (a + n - 1) a ≤ Nat.choose (b + n - 1) b := by
  have ha : Nat.choose (a + n - 1) a = Nat.choose (a + n - 1) (n - 1) := by
    have h1 : a ≤ a + n - 1 := by omega
    have h2 : a + n - 1 - a = n - 1 := by omega
    rw [← h2, Nat.choose_symm h1]
  have hb : Nat.choose (b + n - 1) b = Nat.choose (b + n - 1) (n - 1) := by
    have h1 : b ≤ b + n - 1 := by omega
    have h2 : b + n - 1 - b = n - 1 := by omega
    rw [← h2, Nat.choose_symm h1]
  rw [ha, hb]
  exact Nat.choose_le_choose (n - 1) (by omega)

/-- C6: for fixed n >= 1, even deg >= 2 and r >= 1, sample_size is
non-decreasing as accuracy increases over (0, 1); and for fixed n, deg and
accuracy in (0, 1) it is non-decreasing as r increases. -/
theorem sample_size_monotone :
    (∀ (n deg r : ℕ) (a1 a2 : ℝ), 1 ≤ n → Even deg → 2 ≤ deg → 1 ≤ r →
      0 < a1 → a1 ≤ a2 → a2 < 1 →
      sample_size n deg r a1 ≤ sample_size n deg r a2) ∧
    (∀ (n deg : ℕ) (accu : ℝ) (r1 r2 : ℕ), 1 ≤ n → Even deg → 2 ≤ deg →
      0 < accu → accu < 1 → 1 ≤ r1 → r1 ≤ r2 →
      sample_size n deg r1 accu ≤ sample_size n deg r2 accu) := by
  constructor
  · intro n deg r a1 a2 _ _ _ _ ha1 h12 ha2
    simp only [sample_size]
    apply Int.ceil_le_ceil
    apply mul_le_mul_of_nonneg_right
    · have hpos : (0 : ℝ) < 1 - a2 := by linarith
      have hle : Real.log (1 - a2) ≤ Real.log (1 - a1) :=
        Real.log_le_log hpos (by linarith)
      linarith
    · have hbase : (0 : ℝ) ≤ 2 * (r : ℝ) := by positivity
      exact pow_nonneg
        (le_min (Real.rpow_nonneg hbase _) (Real.rpow_nonneg (Nat.cast_nonneg _) _)) _
  · intro n deg accu r1 r2 hn _ _ h0 h1 hr1 hr12
    simp only [sample_size]
    apply Int.ceil_le_ceil
    have hr2 : 1 ≤ r2 := le_trans hr1 hr12
    have ht : 0 ≤ -Real.log (1 - accu) := by
      have := Real.log_nonpos (by linarith : (0 : ℝ) ≤ 1 - accu) (by linarith)
      linarith
    apply mul_le_mul_of_nonneg_left _ ht
    rw [sample_size_alpha_pow n deg r1 hr1, sample_size_alpha_pow n deg r2 hr2]
    apply min_le_min
    · have hr1R : (1 : ℝ) ≤ (r1 : ℝ) := by exact_mod_cast hr1
      have hr12R : ((r1 : ℝ)) ≤ (r2 : ℝ) := by exact_mod_cast hr12
      calc (2 * (r1 : ℝ)) ^ (deg * r1)
          ≤ (2 * (r2 : ℝ)) ^ (deg * r1) :=
            pow_le_pow_left₀ (by positivity) (by linarith) _
        _ ≤ (2 * (r2 : ℝ)) ^ (deg * r2) :=
            pow_le_pow_right₀ (by linarith) (Nat.mul_le_mul_left deg hr12)
    · have := choose_shift_mono n hn (Nat.mul_le_mul_right deg hr12)
      exact_mod_cast this

/-- Witness for C6 at n = 1, deg = 2, r = 1 vs r = 2 and accuracy
1/4 vs 1/2. -/
theorem sample_size_monotone_witness :
    ((1 ≤ 1) ∧ Even 2 ∧ (2 ≤ 2) ∧ (1 ≤ 1) ∧ (0 < (1/4 : ℝ)) ∧ ((1/4 : ℝ) ≤ 1/2) ∧
      ((1/2 : ℝ) < 1)) ∧
    sample_size 1 2 1 (1/4) ≤ sample_size 1 2 1 (1/2) ∧
    sample_size 1 2 1 (1/4) ≤ sample_size 1 2 2 (1/4) :=
  ⟨⟨le_refl 1, by decide, le_refl 2, le_refl 1, by norm_num, by norm_num, by norm_num⟩,
    sample_size_monotone.1 1 2 1 (1/4) (1/2) (le_refl 1) (by decide) (le_refl 2)
      (le_refl 1) (by norm_num) (by norm_num) (by norm_num),
    sample_size_monotone.2 1 2 (1/4) 1 2 (le_refl 1) (by decide) (le_refl 2)
      (by norm_num) (by norm_num) (le_refl 1) (by norm_num)⟩

/-- C10: when the basis W is non-empty and every sampled candidate has
absolute inner product at least `inner` with some basis direction, the
surviving candidate set is empty and vec_finder raises the
argmax-of-an-empty-sequence error instead of triggering a resampling
retry (the residual norm hypothesis records that the norm computation
preceding the argmax succeeds). -/
theorem vec_finder_empty_survivors_error :
    ∀ (n r : ℕ) (poly projection_poly : custom_polynomial) (accu : ℝ) (max_size : ℤ)
      (inner : ℝ) (W X : List (List ℝ)) (WX : List ℝ) (V : List (List ℝ))
      (batches : List (List (List ℝ))) (tries : ℕ) (L : ℝ),
      W ≠ [] →
      (∀ v ∈ V, inner ≤ row_max_abs_inner v W) →
      (sustract_polynomials poly projection_poly).Lr_norm X WX r = Except.ok L →
      vec_finder n r poly projection_poly accu max_size inner W X WX (V :: batches) tries =
        Except.error "attempt to get argmax of an empty sequence" := by
  intro n r poly projection_poly accu max_size inner W X WX V batches tries L hW hall hL
  match W, hW with
  | w :: Ws, _ =>
    rw [vec_finder, hL]
    have hfil : V.filter (fun v => decide (row_max_abs_inner v (w :: Ws) < inner)) = [] := by
      rw [List.filter_eq_nil_iff]
      intro v hv
      simp only [decide_eq_true_eq, not_lt]
      exact hall v hv
    rw [hfil]
    rfl

/-- Witness for C10: in one variable with basis [[1]] and threshold 1/2,
the candidate [1] is filtered out and the call errors. -/
theorem vec_finder_empty_survivors_error_witness :
    (([[(1 : ℝ)]] : List (List ℝ)) ≠ [] ∧
      (∀ v ∈ ([[(1 : ℝ)]] : List (List ℝ)), (1/2 : ℝ) ≤ row_max_abs_inner v [[(1 : ℝ)]]) ∧
      (sustract_polynomials (custom_polynomial.init 1 [1] 2)
          (custom_polynomial.init 0 [1] 2)).Lr_norm [[1], [-1]] [1, 1] 1 =
        Except.ok 1) ∧
    vec_finder 1 1 (custom_polynomial.init 1 [1] 2) (custom_polynomial.init 0 [1] 2)
        (95/100) 1 (1/2) [[1]] [[1], [-1]] [1, 1] [[[1]]] 1 =
      Except.error "attempt to get argmax of an empty sequence" := by
  have hL : (sustract_polynomials (custom_polynomial.init 1 [1] 2)
      (custom_polynomial.init 0 [1] 2)).Lr_norm [[1], [-1]] [1, 1] 1 = Except.ok 1 := by
    have hev : parallelized_evaluation
        (sustract_polynomials (custom_polynomial.init 1 [1] 2)
          (custom_polynomial.init 0 [1] 2)) [[1], [-1]] = Except.ok [1, 1] := by
      simp [parallelized_evaluation, evaluate_pol, custom_polynomial.evaluate,
        sustract_polynomials, custom_polynomial.init, PExpr.eval, dot]
    rw [custom_polynomial.Lr_norm, hev]
    simp only [sustract_polynomials, custom_polynomial.init, sphere_surface_area, ball_volume]
    norm_num
  have hall : ∀ v ∈ ([[(1 : ℝ)]] : List (List ℝ)),
      (1/2 : ℝ) ≤ row_max_abs_inner v [[(1 : ℝ)]] := by
    intro v hv
    simp only [List.mem_singleton] at hv
    subst hv
    rw [row_max_abs_inner]
    simp [dot]
    norm_num
  exact ⟨⟨by simp, hall, hL⟩,
    vec_finder_empty_survivors_error 1 1 (custom_polynomial.init 1 [1] 2)
      (custom_polynomial.init 0 [1] 2) (95/100) 1 (1/2) [[1]] [[1], [-1]] [1, 1]
      [[1]] [] 1 1 (by simp) hall hL⟩

/-- Residual polynomial for the concrete vec_finder run: (x + 2y)^2. -/
noncomputable def pC2 : custom_polynomial := custom_polynomial.init 1 [1, 2] 2

/-- Zero projection polynomial (coefficient 0). -/
noncomputable def projC2 : custom_polynomial := custom_polynomial.init 0 [1, 0] 2

/-- Four axis nodes on the circle. -/
noncomputable def XC2 : List (List ℝ) := [[1, 0], [-1, 0], [0, 1], [0, -1]]

/-- Unit weights. -/
noncomputable def WXC2 : List ℝ := [1, 1, 1, 1]

/-- The residual's L1 norm over the concrete rule is 5 / pi. -/
lemma LrC2 : (sustract_polynomials pC2 projC2).Lr_norm XC2 WXC2 1 =
    Except.ok (5 / Real.pi) := by
  have hev : parallelized_evaluation (sustract_polynomials pC2 projC2) XC2 =
      Except.ok [1, 1, 4, 4] := by
    simp [parallelized_evaluation, evaluate_pol, custom_polynomial.evaluate,
      sustract_polynomials, pC2, projC2, custom_polynomial.init, PExpr.eval, dot, XC2]
    norm_num
  rw [custom_polynomial.Lr_norm, hev]
  simp only [sustract_polynomials, pC2, projC2, custom_polynomial.init, WXC2,
    sphere_surface_area, ball_volume]
  norm_num
  field_simp
  ring

/-- Evaluation of the residual at the failing candidate (4/5, -3/5). -/
lemma fV_failC2 : parallelized_evaluation (sustract_polynomials pC2 projC2)
    [[4/5, -3/5]] = Except.ok [4/25] := by
  simp [parallelized_evaluation, evaluate_pol, custom_polynomial.evaluate,
    sustract_polynomials, pC2, projC2, custom_polynomial.init, PExpr.eval, dot]
  norm_num

/-- Evaluation of the residual at the accepted candidate (1, 0). -/
lemma fV_okC2 : parallelized_evaluation (sustract_polynomials pC2 projC2)
    [[1, 0]] = Except.ok [1] := by
  simp [parallelized_evaluation, evaluate_pol, custom_polynomial.evaluate,
    sustract_polynomials, pC2, projC2, custom_polynomial.init, PExpr.eval, dot]

/-- On the batch containing only (1, 0) the half-norm test succeeds at any
attempt counter and the quadruple is returned. -/
lemma vec_finder_C2_success (batches : List (List (List ℝ))) (tries : ℕ) :
    vec_finder 2 1 pC2 projC2 (95/100) 1 (8/10) [] XC2 WXC2
        ([[(1 : ℝ), 0]] :: batches) tries =
      Except.ok (some ([1, 0], 1, custom_polynomial.init 1 [1, 0] 2, 5 / Real.pi)) := by
  rw [vec_finder, LrC2, fV_okC2]
  have hc : (0.5 : ℝ) * (5 / Real.pi) ≤ np_max [|(1 : ℝ)|] := by
    have h3 := Real.pi_gt_three
    rw [np_max]
    simp only [List.foldr]
    rw [show |(1 : ℝ)| = 1 by norm_num, max_eq_left (by norm_num : (0:ℝ) ≤ 1),
      show (0.5 : ℝ) * (5 / Real.pi) = 5 / (2 * Real.pi) by ring,
      div_le_one (by positivity)]
    linarith
  simp only [List.map]
  rw [if_pos hc]
  simp [np_argmax, pC2, custom_polynomial.init]

/-- C2 (code bug, missing `return` on the retry path): with the residual
(x + 2y)^2, r = 1, no basis, the four-node rule and two sampled batches —
the first batch's best candidate (4/5, -3/5) fails the half-norm test
(|diff| = 4/25 < (1/2) (5/pi)), the second batch's candidate (1, 0)
passes it — the whole call returns ok none: the retry finds the quadruple
but the recursive call's value is discarded, so the caller receives None
instead of the quadruple the claim promises.  The same call started
directly on the successful batch returns the quadruple. -/
theorem vec_finder_retry_discards_quadruple :
    vec_finder 2 1 pC2 projC2 (95/100) 1 (8/10) [] XC2 WXC2
        [[[4/5, -3/5]], [[(1 : ℝ), 0]]] 1 =
      Except.ok none ∧
    vec_finder 2 1 pC2 projC2 (95/100) 1 (8/10) [] XC2 WXC2
        [[[(1 : ℝ), 0]]] 1 =
      Except.ok (some ([1, 0], 1, custom_polynomial.init 1 [1, 0] 2, 5 / Real.pi)) := by
  refine ⟨?_, vec_finder_C2_success [] 1⟩
  rw [vec_finder, LrC2, fV_failC2]
  have hc : ¬ ((0.5 : ℝ) * (5 / Real.pi) ≤ np_max [|(4 : ℝ)/25|]) := by
    have h315 := Real.pi_lt_d2
    rw [np_max]
    simp only [List.foldr]
    rw [show |(4 : ℝ)/25| = 4/25 by norm_num,
      max_eq_left (by norm_num : (0:ℝ) ≤ 4/25), not_le,
      show (0.5 : ℝ) * (5 / Real.pi) = 5 / (2 * Real.pi) by ring,
      lt_div_iff₀ (by positivity)]
    nlinarith [Real.pi_gt_three]
  simp only [List.map]
  rw [if_neg hc]
  rw [if_pos (by norm_num : 1 + 1 ≤ 10)]
  rw [vec_finder_C2_success [] 2]

/-- Existing rank-one basis polynomial for the add_vector run. -/
noncomputable def qaC3 : custom_polynomial := custom_polynomial.init 1 [1, 0] 2

/-- Accepted candidate's rank-one polynomial. -/
noncomputable def qbC3 : custom_polynomial := custom_polynomial.init 1 [0, 1] 2

/-- Target polynomial (only its degree 2 is read by add_vector). -/
noncomputable def pC3 : custom_polynomial := custom_polynomial.init 1 [1, 0] 2

/-- Projection argument (unused by the embedded add_vector branch). -/
noncomputable def projC3 : custom_polynomial := custom_polynomial.init 0 [1, 0] 2

/-- The Gram matrix of the duplicated direction list is the all-ones
matrix, of rank at most 1, hence not 2. -/
lemma gram_dup_rank_ne :
    Matrix.rank (gram_matrix [[(1 : ℝ), 0], [(1 : ℝ), 0]] 2) ≠ 2 := by
  have hfac : (gram_matrix [[(1 : ℝ), 0], [(1 : ℝ), 0]] 2 : Matrix (Fin 2) (Fin 2) ℝ) =
      (Matrix.of fun (_ : Fin 2) (_ : Fin 1) => (1 : ℝ)) *
        (Matrix.of fun (_ : Fin 1) (_ : Fin 2) => (1 : ℝ)) := by
    ext i j
    fin_cases i <;> fin_cases j <;>
      simp [gram_matrix, dot, Matrix.mul_apply]
  have hle : Matrix.rank (gram_matrix [[(1 : ℝ), 0], [(1 : ℝ), 0]] 2) ≤ 1 := by
    rw [hfac]
    calc Matrix.rank ((Matrix.of fun (_ : Fin 2) (_ : Fin 1) => (1 : ℝ)) *
            (Matrix.of fun (_ : Fin 1) (_ : Fin 2) => (1 : ℝ)))
        ≤ Matrix.rank (Matrix.of fun (_ : Fin 2) (_ : Fin 1) => (1 : ℝ)) :=
          Matrix.rank_mul_le_left _ _
      _ ≤ Fintype.card (Fin 1) := Matrix.rank_le_card_width _
      _ = 1 := by simp
  omega

/-- The Gram matrix of the two orthogonal unit directions is the identity. -/
lemma gram_ortho_eq :
    (gram_matrix [[(1 : ℝ), 0], [0, 1]] 2 : Matrix (Fin 2) (Fin 2) ℝ) = 1 := by
  ext i j
  fin_cases i <;> fin_cases j <;>
    simp [gram_matrix, dot, Matrix.one_apply]

/-- Accepting (0, 1) against basis [[1, 0]]: the Gram matrix is the
identity, the solved coefficients are the raw evaluations, and the
appended state with the assembled projection is returned. -/
lemma add_vector_C3_success :
    add_vector [[(1 : ℝ), 0]] [1] [qaC3] [] [] 2 1 pC3 projC3 1 (8/10) (95/100)
        [([0, 1], 3, qbC3, 7)] =
      Except.ok (some ([[(1 : ℝ), 0], [0, 1]], [1, 3], [qaC3, qbC3], 7,
        add_polynomials (multiply_constant qaC3 1) (multiply_constant qbC3 3)), []) := by
  rw [add_vector]
  have hrank : Matrix.rank (gram_matrix [[(1 : ℝ), 0], [0, 1]] 2) = 2 := by
    rw [gram_ortho_eq]
    rw [Matrix.rank_one]
    simp
  simp only [pC3, custom_polynomial.init, List.cons_append, List.nil_append,
    List.length_cons, List.length_nil]
  rw [if_neg (by rw [hrank]; exact fun hcontra => hcontra rfl)]
  rw [gram_ortho_eq, inv_one]
  simp [projection_from, List.enum, Matrix.one_mulVec, List.getD]

/-- C3 (code bug, missing `return` on the singular path): with current
basis [[1, 0]] and a finder stream whose first candidate duplicates the
basis direction (the extended Gram matrix is singular) and whose second
candidate (0, 1) is accepted, add_vector appends nothing for the rejected
candidate but returns ok none to its caller — the retry's successful
result is discarded, so the singularity does surface as a None result
(the caller's tuple unpacking then crashes).  The same call on the stream
without the singular candidate returns the full result. -/
theorem add_vector_singular_returns_none :
    add_vector [[(1 : ℝ), 0]] [1] [qaC3] [] [] 2 1 pC3 projC3 1 (8/10) (95/100)
        [([1, 0], 5, qaC3, 7), ([0, 1], 3, qbC3, 7)] =
      Except.ok (none, []) ∧
    add_vector [[(1 : ℝ), 0]] [1] [qaC3] [] [] 2 1 pC3 projC3 1 (8/10) (95/100)
        [([0, 1], 3, qbC3, 7)] =
      Except.ok (some ([[(1 : ℝ), 0], [0, 1]], [1, 3], [qaC3, qbC3], 7,
        add_polynomials (multiply_constant qaC3 1) (multiply_constant qbC3 3)), []) := by
  refine ⟨?_, add_vector_C3_success⟩
  rw [add_vector]
  have hdeg : pC3.degree = 2 := rfl
  simp only [hdeg, List.cons_append, List.nil_append, List.length_cons, List.length_nil]
  rw [if_pos gram_dup_rank_ne]
  rw [add_vector_C3_success]

/-- Target polynomial x^2 for the one-dimensional greedy run. -/
noncomputable def pC4 : custom_polynomial := custom_polynomial.init 1 [1] 2

/-- Initial projection of the decomposer: poly - poly. -/
noncomputable def projC4 : custom_polynomial := sustract_polynomials pC4 pC4

/-- Rank-one candidate polynomial of the direction [1]. -/
noncomputable def qC4 : custom_polynomial := custom_polynomial.init 1 [1] 2

/-- The 1x1 Gram matrix of the single unit direction is the identity. -/
lemma gram_single_eq : (gram_matrix [[(1 : ℝ)]] 2 : Matrix (Fin 1) (Fin 1) ℝ) = 1 := by
  ext i j
  fin_cases i
  fin_cases j
  simp [gram_matrix, dot, Matrix.one_apply]

/-- Accepting the direction [1] from the empty basis: the appended state
and the projection 1 * q are returned with the oracle residual norm 5. -/
lemma add_vector_C4 :
    add_vector [] [] [] [[1], [-1]] [1, 1] 1 1 pC4 projC4 1 (8/10) (95/100)
        [([1], 1, qC4, 5)] =
      Except.ok (some ([[(1 : ℝ)]], [1], [qC4], 5, multiply_constant qC4 1), []) := by
  rw [add_vector]
  have hdeg : pC4.degree = 2 := rfl
  simp only [hdeg, List.nil_append, List.length_cons, List.length_nil]
  have hrank : Matrix.rank (gram_matrix [[(1 : ℝ)]] 2) = 1 := by
    rw [gram_single_eq, Matrix.rank_one]
    simp
  rw [if_neg (by rw [hrank]; exact fun hcontra => hcontra rfl)]
  rw [gram_single_eq, inv_one]
  simp [projection_from, List.enum, Matrix.one_mulVec, List.getD]

/-- C4 counterexample: one decomposer iteration whose improvement is
|5 - 5| = 0 <= tol rolls back the appended basis entry and restores the
previous error, but the projection in the resulting state is the
just-computed candidate projection 1 * q (value 1 at the point [1]), not
the pre-iteration projection poly - poly (value 0 there): the projection
is not restored. -/
theorem greedy_stagnant_keeps_new_projection :
    greedy_loop 1 1 pC4 (95/100) (8/10) 5 (1/1000) 2 1 [[1], [-1]] [1, 1] 1
        1 [] [] [] ((5 : ℝ) : EReal) projC4 1 [([1], 1, qC4, 5)] =
      Except.ok ([], [], [], ((5 : ℝ) : EReal), multiply_constant qC4 1,
        GreedyExit.stagnant_stop) ∧
    (multiply_constant qC4 1).f [1] = 1 ∧ projC4.f [1] = 0 := by
  refine ⟨?_, ?_, ?_⟩
  · rw [greedy_loop]
    rw [if_neg (show ¬ ((((5 : ℝ) : EReal)) < ((5 : ℝ) : EReal)) from lt_irrefl _)]
    rw [add_vector_C4]
    dsimp only
    have h0 : ((5 : ℝ) : EReal) - ((5 : ℝ) : EReal) = ((0 : ℝ) : EReal) := by
      rw [← EReal.coe_sub]
      norm_num
    have hdiff : ereal_abs (((5 : ℝ) : EReal) - ((5 : ℝ) : EReal)) ≤ ((1/1000 : ℝ) : EReal) := by
      rw [ereal_abs, h0]
      simp only [EReal.coe_zero, neg_zero, max_self]
      exact EReal.coe_nonneg.mpr (by norm_num)
    rw [if_pos hdiff]
    rw [if_pos (show 2 ≤ 1 + 1 by norm_num)]
    simp [List.dropLast]
  · simp [multiply_constant, qC4, custom_polynomial.init, PExpr.eval, dot]
  · simp [projC4, sustract_polynomials, pC4, custom_polynomial.init, PExpr.eval, dot]

/-- C4 amended: in every decomposer iteration whose improvement is at
most the tolerance (with the stagnation counter still below max_iter and
the rolled-back basis below max_vec), the just-appended entries of W, fW
and Q are rolled back, the previous error value is restored and the
stagnation counter advances — but the projection variable carries the
just-computed candidate projection polynomial into the next iteration;
the previous projection is not restored. -/
theorem greedy_stagnant_rolls_back_except_projection :
    ∀ (n r : ℕ) (poly : custom_polynomial) (accu inner eps tol : ℝ)
      (max_iter max_vec : ℕ) (X : List (List ℝ)) (WX : List ℝ) (max_size : ℤ)
      (fuel : ℕ) (W : List (List ℝ)) (fW : List ℝ) (Q : List custom_polynomial)
      (error : EReal) (projection_poly : custom_polynomial) (iteration : ℕ)
      (finds rest : List FinderQuad)
      (W2 : List (List ℝ)) (fW2 : List ℝ) (Q2 : List custom_polynomial)
      (error2 : ℝ) (new_projection_poly : custom_polynomial),
      ¬ (error < (eps : EReal)) →
      add_vector W fW Q X WX n r poly projection_poly max_size inner accu finds =
        Except.ok (some (W2, fW2, Q2, error2, new_projection_poly), rest) →
      ereal_abs (error - (error2 : EReal)) ≤ (tol : EReal) →
      ¬ (max_iter ≤ iteration + 1) →
      ¬ (max_vec ≤ W2.dropLast.length) →
      greedy_loop n r poly accu inner eps tol max_iter max_vec X WX max_size
          (fuel + 1) W fW Q error projection_poly iteration finds =
        greedy_loop n r poly accu inner eps tol max_iter max_vec X WX max_size
          fuel W2.dropLast fW2.dropLast Q2.dropLast error new_projection_poly
          (iteration + 1) rest := by
  intro n r poly accu inner eps tol max_iter max_vec X WX max_size fuel W fW Q
    error projection_poly iteration finds rest W2 fW2 Q2 error2 new_projection_poly
    heps hadd hdiff hiter hvec
  rw [greedy_loop, if_neg heps, hadd]
  dsimp only
  rw [if_pos hdiff, if_neg hiter, if_neg hvec]

/-- Witness for the amended C4 theorem on the concrete stagnant
iteration. -/
theorem greedy_stagnant_rolls_back_except_projection_witness :
    (¬ (((5 : ℝ) : EReal) < ((5 : ℝ) : EReal)) ∧
      add_vector [] [] [] [[1], [-1]] [1, 1] 1 1 pC4 projC4 1 (8/10) (95/100)
          [([1], 1, qC4, 5)] =
        Except.ok (some ([[(1 : ℝ)]], [1], [qC4], 5, multiply_constant qC4 1), []) ∧
      ereal_abs (((5 : ℝ) : EReal) - ((5 : ℝ) : EReal)) ≤ ((1/1000 : ℝ) : EReal) ∧
      ¬ ((3 : ℕ) ≤ 1 + 1) ∧
      ¬ ((1 : ℕ) ≤ ([[(1 : ℝ)]].dropLast).length)) ∧
    greedy_loop 1 1 pC4 (95/100) (8/10) 5 (1/1000) 3 1 [[1], [-1]] [1, 1] 1
        1 [] [] [] ((5 : ℝ) : EReal) projC4 1 [([1], 1, qC4, 5)] =
      greedy_loop 1 1 pC4 (95/100) (8/10) 5 (1/1000) 3 1 [[1], [-1]] [1, 1] 1
        0 [[(1 : ℝ)]].dropLast [(1 : ℝ)].dropLast [qC4].dropLast ((5 : ℝ) : EReal)
        (multiply_constant qC4 1) (1 + 1) [] := by
  have h0 : ((5 : ℝ) : EReal) - ((5 : ℝ) : EReal) = ((0 : ℝ) : EReal) := by
    rw [← EReal.coe_sub]
    norm_num
  have hdiff : ereal_abs (((5 : ℝ) : EReal) - ((5 : ℝ) : EReal)) ≤ ((1/1000 : ℝ) : EReal) := by
    rw [ereal_abs, h0]
    simp only [EReal.coe_zero, neg_zero, max_self]
    exact EReal.coe_nonneg.mpr (by norm_num)
  refine ⟨⟨lt_irrefl _, add_vector_C4, hdiff, by norm_num, by simp⟩, ?_⟩
  exact greedy_stagnant_rolls_back_except_projection 1 1 pC4 (95/100) (8/10) 5 (1/1000)
    3 1 [[1], [-1]] [1, 1] 1 0 [] [] [] ((5 : ℝ) : EReal) projC4 1 [([1], 1, qC4, 5)] []
    [[(1 : ℝ)]] [(1 : ℝ)] [qC4] 5 (multiply_constant qC4 1)
    (lt_irrefl _) add_vector_C4 hdiff (by norm_num) (by simp)

/-- A successful add_vector result extends each of W, fW, Q by exactly
the accepted candidate's entry (the singular branch never produces a
`some` result: it discards the retry's value and yields `none`). -/
lemma add_vector_ok_some_shape :
    ∀ (finds : List FinderQuad) (W : List (List ℝ)) (fW : List ℝ)
      (Q : List custom_polynomial) (X : List (List ℝ)) (WX : List ℝ) (n r : ℕ)
      (poly projection_poly : custom_polynomial) (max_size : ℤ) (inner accu : ℝ)
      (W2 : List (List ℝ)) (fW2 : List ℝ) (Q2 : List custom_polynomial) (e2 : ℝ)
      (p2 : custom_polynomial) (rest : List FinderQuad),
      add_vector W fW Q X WX n r poly projection_poly max_size inner accu finds =
        Except.ok (some (W2, fW2, Q2, e2, p2), rest) →
      ∃ v fv q, W2 = W ++ [v] ∧ fW2 = fW ++ [fv] ∧ Q2 = Q ++ [q] := by
  intro finds
  induction finds with
  | nil =>
      intro W fW Q X WX n r poly projection_poly max_size inner accu
        W2 fW2 Q2 e2 p2 rest h
      rw [add_vector] at h
      exact absurd h (by simp)
  | cons quad rest0 ih =>
      obtain ⟨v, fv, q, lrq⟩ := quad
      intro W fW Q X WX n r poly projection_poly max_size inner accu
        W2 fW2 Q2 e2 p2 rest h
      rw [add_vector] at h
      dsimp only at h
      by_cases hr : Matrix.rank (gram_matrix (W ++ [v]) poly.degree) ≠ (W ++ [v]).length
      · rw [if_pos hr] at h
        cases hav : add_vector W fW Q X WX n r poly projection_poly max_size inner accu
            rest0 with
        | error e => rw [hav] at h; exact absurd h (by simp)
        | ok pr =>
            obtain ⟨opt, rest2⟩ := pr
            rw [hav] at h
            exact absurd h (by simp)
      · rw [if_neg hr] at h
        simp only [Except.ok.injEq, Option.some.injEq, Prod.mk.injEq] at h
        obtain ⟨⟨hW2, hfW2, hQ2, _, _⟩, _⟩ := h
        exact ⟨v, fv, q, hW2.symm, hfW2.symm, hQ2.symm⟩


/-- Starting below the basis bound, every state the loop returns keeps
the basis size at or below the bound, and the exit reason is basis-full
if and only if the returned basis has reached the bound: every other
exit (converged, stagnant-stop, out-of-fuel) leaves the basis strictly
below it. -/
lemma greedy_loop_basis_invariant :
    ∀ (fuel : ℕ) (n r : ℕ) (poly : custom_polynomial) (accu inner eps tol : ℝ)
      (max_iter max_vec : ℕ) (X : List (List ℝ)) (WX : List ℝ) (max_size : ℤ)
      (W : List (List ℝ)) (fW : List ℝ) (Q : List custom_polynomial) (error : EReal)
      (projection_poly : custom_polynomial) (iteration : ℕ) (finds : List FinderQuad)
      (Wf : List (List ℝ)) (fWf : List ℝ) (Qf : List custom_polynomial) (ef : EReal)
      (pf : custom_polynomial) (reason : GreedyExit),
      W.length < max_vec →
      greedy_loop n r poly accu inner eps tol max_iter max_vec X WX max_size
          fuel W fW Q error projection_poly iteration finds =
        Except.ok (Wf, fWf, Qf, ef, pf, reason) →
      Wf.length ≤ max_vec ∧ (reason = GreedyExit.basis_full ↔ Wf.length = max_vec) := by
  intro fuel
  induction fuel with
  | zero =>
      intro n r poly accu inner eps tol max_iter max_vec X WX max_size W fW Q error
        projection_poly iteration finds Wf fWf Qf ef pf reason hlen h
      rw [greedy_loop] at h
      simp only [Except.ok.injEq, Prod.mk.injEq] at h
      obtain ⟨hW, _, _, _, _, hreason⟩ := h
      subst hW
      subst hreason
      exact ⟨le_of_lt hlen, ⟨fun hc => absurd hc (by decide), fun h2 => absurd h2 (by omega)⟩⟩
  | succ fuel ih =>
      intro n r poly accu inner eps tol max_iter max_vec X WX max_size W fW Q error
        projection_poly iteration finds Wf fWf Qf ef pf reason hlen h
      rw [greedy_loop] at h
      by_cases heps : error < (eps : EReal)
      · rw [if_pos heps] at h
        simp only [Except.ok.injEq, Prod.mk.injEq] at h
        obtain ⟨hW, _, _, _, _, hreason⟩ := h
        subst hW
        subst hreason
        exact ⟨le_of_lt hlen, ⟨fun hc => absurd hc (by decide), fun h2 => absurd h2 (by omega)⟩⟩
      · rw [if_neg heps] at h
        cases hav : add_vector W fW Q X WX n r poly projection_poly max_size inner accu
            finds with
        | error e => rw [hav] at h; exact absurd h (by simp)
        | ok pr =>
            obtain ⟨opt, rest⟩ := pr
            cases opt with
            | none => rw [hav] at h; exact absurd h (by simp)
            | some res =>
                obtain ⟨W2, fW2, Q2, e2, np⟩ := res
                rw [hav] at h
                dsimp only at h
                obtain ⟨v, fv, q, hW2, hfW2, hQ2⟩ :=
                  add_vector_ok_some_shape finds W fW Q X WX n r poly projection_poly
                    max_size inner accu W2 fW2 Q2 e2 np rest hav
                have hdropW : W2.dropLast = W := by rw [hW2]; exact List.dropLast_concat
                have hlenW2 : W2.length = W.length + 1 := by simp [hW2]
                by_cases hdiff : ereal_abs (error - (e2 : EReal)) ≤ (tol : EReal)
                · rw [if_pos hdiff] at h
                  by_cases hiter : max_iter ≤ iteration + 1
                  · rw [if_pos hiter] at h
                    simp only [Except.ok.injEq, Prod.mk.injEq] at h
                    obtain ⟨hW, _, _, _, _, hreason⟩ := h
                    rw [hdropW] at hW
                    subst hW
                    subst hreason
                    exact ⟨le_of_lt hlen,
                      ⟨fun hc => absurd hc (by decide), fun h2 => absurd h2 (by omega)⟩⟩
                  · rw [if_neg hiter] at h
                    by_cases hfull : max_vec ≤ W2.dropLast.length
                    · rw [hdropW] at hfull
                      exact absurd hfull (not_le.mpr hlen)
                    · rw [if_neg hfull] at h
                      rw [hdropW] at hfull
                      exact ih n r poly accu inner eps tol max_iter max_vec X WX max_size
                        W2.dropLast fW2.dropLast Q2.dropLast error np (iteration + 1) rest
                        Wf fWf Qf ef pf reason (by rw [hdropW]; exact hlen) h
                · rw [if_neg hdiff] at h
                  by_cases hfull : max_vec ≤ W2.length
                  · rw [if_pos hfull] at h
                    simp only [Except.ok.injEq, Prod.mk.injEq] at h
                    obtain ⟨hW, _, _, _, _, hreason⟩ := h
                    subst hW
                    subst hreason
                    constructor
                    · omega
                    · constructor
                      · intro _
                        omega
                      · intro _
                        rfl
                  · rw [if_neg hfull] at h
                    exact ih n r poly accu inner eps tol max_iter max_vec X WX max_size
                      W2 fW2 Q2 (e2 : EReal) np iteration rest
                      Wf fWf Qf ef pf reason (not_le.mp hfull) h

/-- C7: (i) the basis grows by exactly one entry per successful
add_vector call, hence at most one per decomposer iteration (a stagnant
iteration rolls the entry back); (ii) a committed iteration whose
appended basis reaches max_vec terminates the loop with the basis-full
reason; (iii) a rejected (stagnant) iteration whose rolled-back basis is
at the bound — when the stagnation counter has not expired first — also
terminates with the basis-full reason; (iv) a greedy_approximation run
started on n >= 1 variables keeps the basis size at or below
max_vec = C(n + deg - 1, deg) in every returned terminal state, and the
returned reason is basis-full if and only if the basis has reached that
bound. -/
theorem greedy_basis_bounded :
    (∀ (finds : List FinderQuad) (W : List (List ℝ)) (fW : List ℝ)
       (Q : List custom_polynomial) (X : List (List ℝ)) (WX : List ℝ) (n r : ℕ)
       (poly projection_poly : custom_polynomial) (max_size : ℤ) (inner accu : ℝ)
       (W2 : List (List ℝ)) (fW2 : List ℝ) (Q2 : List custom_polynomial) (e2 : ℝ)
       (p2 : custom_polynomial) (rest : List FinderQuad),
       add_vector W fW Q X WX n r poly projection_poly max_size inner accu finds =
         Except.ok (some (W2, fW2, Q2, e2, p2), rest) →
       W2.length = W.length + 1) ∧
    (∀ (n r : ℕ) (poly : custom_polynomial) (accu inner eps tol : ℝ)
       (max_iter max_vec : ℕ) (X : List (List ℝ)) (WX : List ℝ) (max_size : ℤ)
       (fuel : ℕ) (W : List (List ℝ)) (fW : List ℝ) (Q : List custom_polynomial)
       (error : EReal) (projection_poly : custom_polynomial) (iteration : ℕ)
       (finds rest : List FinderQuad) (W2 : List (List ℝ)) (fW2 : List ℝ)
       (Q2 : List custom_polynomial) (e2 : ℝ) (np : custom_polynomial),
       ¬ (error < (eps : EReal)) →
       add_vector W fW Q X WX n r poly projection_poly max_size inner accu finds =
         Except.ok (some (W2, fW2, Q2, e2, np), rest) →
       ¬ (ereal_abs (error - (e2 : EReal)) ≤ (tol : EReal)) →
       max_vec ≤ W2.length →
       greedy_loop n r poly accu inner eps tol max_iter max_vec X WX max_size
           (fuel + 1) W fW Q error projection_poly iteration finds =
         Except.ok (W2, fW2, Q2, (e2 : EReal), np, GreedyExit.basis_full)) ∧
    (∀ (n r : ℕ) (poly : custom_polynomial) (accu inner eps tol : ℝ)
       (max_iter max_vec : ℕ) (X : List (List ℝ)) (WX : List ℝ) (max_size : ℤ)
       (fuel : ℕ) (W : List (List ℝ)) (fW : List ℝ) (Q : List custom_polynomial)
       (error : EReal) (projection_poly : custom_polynomial) (iteration : ℕ)
       (finds rest : List FinderQuad) (W2 : List (List ℝ)) (fW2 : List ℝ)
       (Q2 : List custom_polynomial) (e2 : ℝ) (np : custom_polynomial),
       ¬ (error < (eps : EReal)) →
       add_vector W fW Q X WX n r poly projection_poly max_size inner accu finds =
         Except.ok (some (W2, fW2, Q2, e2, np), rest) →
       ereal_abs (error - (e2 : EReal)) ≤ (tol : EReal) →
       ¬ (max_iter ≤ iteration + 1) →
       max_vec ≤ W2.dropLast.length →
       greedy_loop n r poly accu inner eps tol max_iter max_vec X WX max_size
           (fuel + 1) W fW Q error projection_poly iteration finds =
         Except.ok (W2.dropLast, fW2.dropLast, Q2.dropLast, error, np,
           GreedyExit.basis_full)) ∧
    (∀ (rj : ℕ → ℚ → List ℝ × List ℝ) (finds : List FinderQuad) (fuel : ℕ)
       (n r : ℕ) (poly : custom_polynomial) (accu inner eps tol : ℝ) (max_iter : ℕ)
       (Wf : List (List ℝ)) (fWf : List ℝ) (Qf : List custom_polynomial) (ef : EReal)
       (pf : custom_polynomial) (reason : GreedyExit),
       1 ≤ n →
       greedy_approximation rj finds fuel n r poly accu inner eps tol max_iter =
         Except.ok (Wf, fWf, Qf, ef, pf, reason) →
       Wf.length ≤ Nat.choose (n + poly.degree - 1) poly.degree ∧
       (reason = GreedyExit.basis_full ↔
         Wf.length = Nat.choose (n + poly.degree - 1) poly.degree)) := by
  refine ⟨?_, ?_, ?_, ?_⟩
  · intro finds W fW Q X WX n r poly projection_poly max_size inner accu
      W2 fW2 Q2 e2 p2 rest h
    obtain ⟨v, _, _, hW2, _, _⟩ :=
      add_vector_ok_some_shape finds W fW Q X WX n r poly projection_poly
        max_size inner accu W2 fW2 Q2 e2 p2 rest h
    simp [hW2]
  · intro n r poly accu inner eps tol max_iter max_vec X WX max_size fuel W fW Q
      error projection_poly iteration finds rest W2 fW2 Q2 e2 np
      heps hadd hdiff hfull
    rw [greedy_loop, if_neg heps, hadd]
    dsimp only
    rw [if_neg hdiff, if_pos hfull]
  · intro n r poly accu inner eps tol max_iter max_vec X WX max_size fuel W fW Q
      error projection_poly iteration finds rest W2 fW2 Q2 e2 np
      heps hadd hdiff hiter hfull
    rw [greedy_loop, if_neg heps, hadd]
    dsimp only
    rw [if_pos hdiff, if_neg hiter, if_pos hfull]
  · intro rj finds fuel n r poly accu inner eps tol max_iter Wf fWf Qf ef pf reason hn h
    rw [greedy_approximation] at h
    cases hsq : spherical_quadrature rj n poly.degree with
    | error e => rw [hsq] at h; exact absurd h (by simp)
    | ok XW =>
        obtain ⟨X, WX⟩ := XW
        rw [hsq] at h
        dsimp only at h
        have hpos : (0 : ℕ) < Nat.choose (n + poly.degree - 1) poly.degree :=
          Nat.choose_pos (by omega)
        exact greedy_loop_basis_invariant fuel n r poly accu inner eps tol max_iter
          (Nat.choose (n + poly.degree - 1) poly.degree) X WX
          (min (sample_size n poly.degree r accu) 100000) [] [] [] ⊤
          (sustract_polynomials poly poly) 1 finds Wf fWf Qf ef pf reason
          (by simpa using hpos) h

/-- Witness for C7: a committed iteration (improvement |10 - 5| = 5 above
the tolerance) whose appended basis reaches the bound max_vec = 1
terminates the loop with the basis-full reason, and a zero-fuel run
returns the initial empty basis with the out-of-fuel marker, below the
bound and not basis-full. -/
theorem greedy_basis_bounded_witness :
    ((¬ (((10 : ℝ) : EReal) < ((5 : ℝ) : EReal)) ∧
        add_vector [] [] [] [[1], [-1]] [1, 1] 1 1 pC4 projC4 1 (8/10) (95/100)
            [([1], 1, qC4, 5)] =
          Except.ok (some ([[(1 : ℝ)]], [1], [qC4], 5, multiply_constant qC4 1), []) ∧
        ¬ (ereal_abs (((10 : ℝ) : EReal) - ((5 : ℝ) : EReal)) ≤ ((1/1000 : ℝ) : EReal)) ∧
        (1 : ℕ) ≤ [[(1 : ℝ)]].length) ∧
      greedy_loop 1 1 pC4 (95/100) (8/10) 5 (1/1000) 1000 1 [[1], [-1]] [1, 1] 1
          1 [] [] [] ((10 : ℝ) : EReal) projC4 1 [([1], 1, qC4, 5)] =
        Except.ok ([[(1 : ℝ)]], [1], [qC4], ((5 : ℝ) : EReal), multiply_constant qC4 1,
          GreedyExit.basis_full)) ∧
    ((1 : ℕ) ≤ 1 ∧
      greedy_approximation (fun _ _ => ([], [])) [] 0 1 1
          (custom_polynomial.init 1 [1] 2) (95/100) (8/10) (3/10) (1/1000) 1000 =
        Except.ok ([], [], [], (⊤ : EReal),
          sustract_polynomials (custom_polynomial.init 1 [1] 2)
            (custom_polynomial.init 1 [1] 2),
          GreedyExit.out_of_fuel)) ∧
    (([] : List (List ℝ)).length ≤
        Nat.choose (1 + (custom_polynomial.init 1 [1] 2).degree - 1)
          (custom_polynomial.init 1 [1] 2).degree ∧
      (GreedyExit.out_of_fuel = GreedyExit.basis_full ↔
        ([] : List (List ℝ)).length =
          Nat.choose (1 + (custom_polynomial.init 1 [1] 2).degree - 1)
            (custom_polynomial.init 1 [1] 2).degree)) := by
  have heps : ¬ (((10 : ℝ) : EReal) < ((5 : ℝ) : EReal)) := fun hlt =>
    absurd (EReal.coe_lt_coe_iff.mp hlt) (by norm_num)
  have hd5 : ereal_abs (((10 : ℝ) : EReal) - ((5 : ℝ) : EReal)) = ((5 : ℝ) : EReal) := by
    rw [ereal_abs, ← EReal.coe_sub, show (10 : ℝ) - 5 = 5 by norm_num, ← EReal.coe_neg]
    exact max_eq_left (EReal.coe_le_coe_iff.mpr (by norm_num))
  have hdneg : ¬ (ereal_abs (((10 : ℝ) : EReal) - ((5 : ℝ) : EReal)) ≤
      ((1/1000 : ℝ) : EReal)) := by
    rw [hd5]
    intro hle
    exact absurd (EReal.coe_le_coe_iff.mp hle) (by norm_num)
  have hga : greedy_approximation (fun _ _ => ([], [])) [] 0 1 1
      (custom_polynomial.init 1 [1] 2) (95/100) (8/10) (3/10) (1/1000) 1000 =
    Except.ok ([], [], [], (⊤ : EReal),
      sustract_polynomials (custom_polynomial.init 1 [1] 2)
        (custom_polynomial.init 1 [1] 2),
      GreedyExit.out_of_fuel) := by
    rw [greedy_approximation]
    rfl
  refine ⟨⟨⟨heps, add_vector_C4, hdneg, by simp⟩, ?_⟩, ⟨le_refl 1, hga⟩, ?_⟩
  · exact greedy_basis_bounded.2.1 1 1 pC4 (95/100) (8/10) 5 (1/1000) 1000 1
      [[1], [-1]] [1, 1] 1 0 [] [] [] ((10 : ℝ) : EReal) projC4 1
      [([1], 1, qC4, 5)] [] [[(1 : ℝ)]] [1] [qC4] 5 (multiply_constant qC4 1)
      heps add_vector_C4 hdneg (by simp)
  · exact greedy_basis_bounded.2.2.2 (fun _ _ => ([], [])) [] 0 1 1
      (custom_polynomial.init 1 [1] 2) (95/100) (8/10) (3/10) (1/1000) 1000
      [] [] [] (⊤ : EReal)
      (sustract_polynomials (custom_polynomial.init 1 [1] 2)
        (custom_polynomial.init 1 [1] 2))
      GreedyExit.out_of_fuel (le_refl 1) hga
